import Mathlib

/-!
# Daugherty Engine Benchmarks - verification of generators and validators

Shallow embedding of the two algorithmic engines of the repository:
the four benchmark-instance generators (`scripts/generate_problems.py`)
and the four solution validators (`scripts/validate_solution.py`).

Conventions of the embedding:

* Python floats are modelled as exact rationals (`ℚ`); Python ints as `ℤ`/`ℕ`.
* `int(x)` on a float is truncation toward zero (`truncInt`); `round(x, d)`
  is modelled by `roundTo d` (rounding of an exact rational; the claims
  under study never evaluate it at a tie, where Python's bankers rounding
  could differ).
* The numpy PCG64 streams are not re-implemented bit for bit: every
  generator and every Monte-Carlo baseline is parametrised by an abstract
  sampling oracle (a function of the draw position), standing for the
  stream obtained from the seed the source passes to
  `np.random.default_rng`.  Library contracts of the numpy primitives
  (`choice(..., replace=False)` returns distinct in-range values,
  `choice([-1,1])` returns signs, `normal` raises on a negative scale)
  appear as hypotheses or as explicit `Except.error` branches, mirroring
  the `ValueError`s numpy raises at runtime.
* Fields of the returned dictionaries that are pure display formatting
  (`f"{x:.1f}%"` strings) or that involve a square root
  (`np.std`, reported standard deviations; `sigma_below_mean`) are carried
  as exact rationals: a baseline record stores the mean, the *variance*
  (the standard deviation is its square root, so equality of variances is
  equality of standard deviations) and the best-of-1000 value.
-/

namespace Daugherty

/-- Python `int(x)` applied to a float: truncation toward zero. -/
def truncInt (q : ℚ) : ℤ :=
  if 0 ≤ q then ⌊q⌋ else ⌈q⌉

/-- Python `round(x, d)` on an exact rational value. -/
def roundTo (d : ℕ) (q : ℚ) : ℚ :=
  (round (q * 10 ^ d) : ℤ) / 10 ^ d

/-- Dot product of two vectors, `np.dot` / `@` on 1-d arrays. -/
def dot (a b : List ℚ) : ℚ :=
  (List.zipWith (· * ·) a b).sum

/-- Matrix-vector product `M @ v` (rows as nested lists). -/
def matVec (M : List (List ℚ)) (v : List ℚ) : List ℚ :=
  M.map fun row => dot row v

/-- Entry `M[i][j]` of a nested-list matrix (0 outside the lists,
which the source never reads thanks to its domain checks). -/
def mEntry (M : List (List ℚ)) (i j : ℕ) : ℚ :=
  (M.getD i []).getD j 0

/-- `np.min` of a list of values (the source only applies it to the
1000-element baseline sample, which is nonempty). -/
def listMin (l : List ℚ) : ℚ :=
  l.foldl min (l.headD 0)

/-- The energy formula `-0.5 * sigma @ J @ sigma - np.dot(h, sigma)` of
`validate_ising` (used both for the candidate and for every baseline
sample). -/
def isingEnergy (J : List (List ℚ)) (h σ : List ℚ) : ℚ :=
  -(1/2) * dot σ (matVec J σ) - dot h σ

/-- The QUBO objective `x @ Q @ x` of `validate_qubo`. -/
def quboObjective (Q : List (List ℚ)) (x : List ℚ) : ℚ :=
  dot x (matVec Q x)

/-- One structured entry of a validator's `errors` list.  The source
appends formatted strings; each constructor carries exactly the data
interpolated into the corresponding message, so distinct violations give
distinct entries. -/
inductive ValError where
  | spinInvalid (i : ℕ) (v : ℤ)
  | spinCount (got expected : ℕ)
  | assignLen (got expected : ℕ)
  | assignInvalid (i : ℕ) (v : ℤ)
  | partLen (got expected : ℕ)
  | partInvalid (i : ℕ) (v : ℤ)
  | solLen (got expected : ℕ)
  | solInvalid (i : ℕ) (v : ℤ)
  deriving Repr, DecidableEq

/-- The seed of `np.random.default_rng(0)` used by the Monte-Carlo
baselines of `validate_ising` and `validate_qubo` (a literal constant in
the source, independent of the instance's generation seed). -/
def baselineSeed : ℕ := 0

/-- Monte-Carlo baseline record: mean, variance and best (minimum) of the
1000 sampled objective values.  The source reports `np.std`, the square
root of `variance`. -/
structure RandomBaseline where
  mean : ℚ
  variance : ℚ
  best : ℚ
  deriving Repr, DecidableEq

/-! ## Ising validator (`validate_ising`) -/

/-- Success payload of `validate_ising`. -/
structure IsingOk where
  energy : ℚ
  baseline : RandomBaseline
  improvementOverMean : ℚ
  improvementOverBest : ℚ
  deriving Repr, DecidableEq

/-- Result of `validate_ising`: either `valid=False` with the collected
error list, or the success payload. -/
structure IsingResult where
  valid : Bool
  errors : List ValError
  ok : Option IsingOk
  deriving Repr, DecidableEq

/-- The spin-value error collection loop of `validate_ising`
(`for i, s in enumerate(spins): if s not in [-1, 1]: errors.append(...)`). -/
def spinValueErrors (spins : List ℤ) : List ValError :=
  spins.enum.filterMap fun p =>
    if p.2 = -1 ∨ p.2 = 1 then none else some (.spinInvalid p.1 p.2)

/-- Full error list of `validate_ising`: element errors first, then the
length check. -/
def isingErrors (spins : List ℤ) (nrows : ℕ) : List ValError :=
  spinValueErrors spins ++
    (if spins.length ≠ nrows then [.spinCount spins.length nrows] else [])

/-- The baseline loop of `validate_ising`: 1000 random spin vectors from
the stream of `np.random.default_rng(baselineSeed)` (abstracted as
`sample`), each scored with the same `J`, `h`. -/
def isingBaseline (sample : ℕ → ℕ → ℤ) (J : List (List ℚ)) (h : List ℚ)
    (n : ℕ) : RandomBaseline :=
  let energies := (List.range 1000).map fun k =>
    isingEnergy J h ((List.range n).map fun i => ((sample k i : ℤ) : ℚ))
  let m := energies.sum / 1000
  { mean := m
    variance := (energies.map fun e => (e - m) ^ 2).sum / 1000
    best := listMin energies }

/-- `validate_ising(J, h, spins)`.  `sample` abstracts the fixed-seed
baseline stream; it is a parameter of the embedding, not of the Python
function, whose signature carries no randomness. -/
def validateIsing (sample : ℕ → ℕ → ℤ) (J : List (List ℚ)) (h : List ℚ)
    (spins : List ℤ) : IsingResult :=
  let errors := isingErrors spins J.length
  if errors.isEmpty then
    let σ := spins.map fun s : ℤ => (s : ℚ)
    let energy := isingEnergy J h σ
    let b := isingBaseline sample J h spins.length
    { valid := true
      errors := []
      ok := some
        { energy := energy
          baseline := b
          improvementOverMean :=
            if b.mean ≠ 0 then (b.mean - energy) / |b.mean| * 100 else 0
          improvementOverBest :=
            if b.best ≠ 0 then (b.best - energy) / |b.best| * 100 else 0 } }
  else
    { valid := false, errors := errors, ok := none }

/-! ## SAT validator (`validate_sat`) -/

/-- Success payload of `validate_sat`. -/
structure SatOk where
  clausesSatisfied : ℕ
  clausesTotal : ℕ
  satisfactionRate : ℚ
  satisfiesAll : Bool
  alpha : ℚ
  regime : String
  firstUnsatisfied : Option (List ℕ)
  deriving Repr, DecidableEq

/-- Result of `validate_sat`. -/
structure SatResult where
  valid : Bool
  errors : List ValError
  ok : Option SatOk
  deriving Repr, DecidableEq

/-- Error list of `validate_sat`: length check first, then the element
loop. -/
def assignErrors (assignment : List ℤ) (numVars : ℕ) : List ValError :=
  (if assignment.length ≠ numVars then
    [.assignLen assignment.length numVars] else []) ++
  assignment.enum.filterMap fun p =>
    if p.2 = 0 ∨ p.2 = 1 then none else some (.assignInvalid p.1 p.2)

/-- One literal of a clause, evaluated against the assignment:
`var = abs(lit) - 1; lit > 0 and assignment[var] == 1`
`or lit < 0 and assignment[var] == 0`. -/
def litSat (assignment : List ℤ) (lit : ℤ) : Bool :=
  if 0 < lit then assignment.getD (lit.natAbs - 1) 0 == 1
  else if lit < 0 then assignment.getD (lit.natAbs - 1) 0 == 0
  else false

/-- The inner literal loop with its `break`: the clause is satisfied iff
some literal evaluates true. -/
def clauseSat (assignment : List ℤ) (clause : List ℤ) : Bool :=
  clause.any (litSat assignment)

/-- The clause loop of `validate_sat`: counts satisfied clauses and
collects the indices of the first (up to) 10 unsatisfied ones, in clause
order. -/
def satScan (assignment : List ℤ) (clauses : List (List ℤ)) :
    ℕ × List ℕ :=
  clauses.enum.foldl
    (fun st p =>
      if clauseSat assignment p.2 then (st.1 + 1, st.2)
      else (st.1, if st.2.length < 10 then st.2 ++ [p.1] else st.2))
    (0, [])

/-- The phase-transition classification shared by generator and
validator (`"hard" if abs(alpha - 4.27) < 0.1 else ...`). -/
def alphaRegime (alpha : ℚ) : String :=
  if |alpha - 427/100| < 1/10 then "hard"
  else if alpha < 427/100 then "easy-SAT" else "easy-UNSAT"

/-- `validate_sat(clauses, num_vars, assignment)`. -/
def validateSat (clauses : List (List ℤ)) (numVars : ℕ)
    (assignment : List ℤ) : SatResult :=
  let errors := assignErrors assignment numVars
  if errors.isEmpty then
    let scan := satScan assignment clauses
    let fraction : ℚ :=
      if clauses.isEmpty then 1 else (scan.1 : ℚ) / clauses.length
    let alpha : ℚ :=
      if 0 < numVars then (clauses.length : ℚ) / numVars else 0
    { valid := true
      errors := []
      ok := some
        { clausesSatisfied := scan.1
          clausesTotal := clauses.length
          satisfactionRate := roundTo 2 (fraction * 100)
          satisfiesAll := scan.1 == clauses.length
          alpha := roundTo 3 alpha
          regime := alphaRegime alpha
          firstUnsatisfied :=
            if scan.2.isEmpty then none else some (scan.2.take 5) } }
  else
    { valid := false, errors := errors, ok := none }

/-! ## Max-Cut validator (`validate_maxcut`) -/

/-- Success payload of `validate_maxcut`.  `cutValue` is an `ℤ` because
the source accumulates `int(adj[i, j])` into a Python int. -/
structure MaxcutOk where
  cutValue : ℤ
  totalEdges : ℕ
  cutRatio : ℚ
  setA : ℕ
  setB : ℕ
  gwBound : ℚ
  deriving Repr, DecidableEq

/-- Result of `validate_maxcut`. -/
structure MaxcutResult where
  valid : Bool
  errors : List ValError
  ok : Option MaxcutOk
  deriving Repr, DecidableEq

/-- Error list of `validate_maxcut`: length check first, then the element
loop. -/
def partErrors (partition : List ℤ) (n : ℕ) : List ValError :=
  (if partition.length ≠ n then [.partLen partition.length n] else []) ++
  partition.enum.filterMap fun p =>
    if p.2 = -1 ∨ p.2 = 1 then none else some (.partInvalid p.1 p.2)

/-- The double loop of `validate_maxcut` over pairs `i < j`: accumulates
`(cut_value, total_edges)`, adding `int(adj[i, j])` to the cut when the
endpoint labels differ. -/
def maxcutScan (adj : List (List ℚ)) (partition : List ℤ) (n : ℕ) :
    ℤ × ℕ :=
  (List.range n).foldl
    (fun st i =>
      (List.range' (i + 1) (n - (i + 1))).foldl
        (fun st2 j =>
          if mEntry adj i j ≠ 0 then
            (if partition.getD i 0 ≠ partition.getD j 0 then
               st2.1 + truncInt (mEntry adj i j) else st2.1,
             st2.2 + 1)
          else st2)
        st)
    (0, 0)

/-- `validate_maxcut(adjacency, partition)`. -/
def validateMaxcut (adj : List (List ℚ)) (partition : List ℤ) :
    MaxcutResult :=
  let n := adj.length
  let errors := partErrors partition n
  if errors.isEmpty then
    let scan := maxcutScan adj partition n
    let cutRatio : ℚ :=
      if 0 < scan.2 then (scan.1 : ℚ) / scan.2 else 0
    let setA := partition.countP fun p => p == 1
    { valid := true
      errors := []
      ok := some
        { cutValue := scan.1
          totalEdges := scan.2
          cutRatio := roundTo 2 (cutRatio * 100)
          setA := setA
          setB := n - setA
          gwBound := roundTo 1 (878/1000 * scan.2) } }
  else
    { valid := false, errors := errors, ok := none }

/-! ## QUBO validator (`validate_qubo`) -/

/-- Success payload of `validate_qubo` (its baseline reports only mean
and best, no standard deviation). -/
structure QuboOk where
  objective : ℚ
  numOnes : ℤ
  baselineMean : ℚ
  baselineBest : ℚ
  deriving Repr, DecidableEq

/-- Result of `validate_qubo`. -/
structure QuboResult where
  valid : Bool
  errors : List ValError
  ok : Option QuboOk
  deriving Repr, DecidableEq

/-- Error list of `validate_qubo`: length check first, then the element
loop. -/
def solErrors (solution : List ℤ) (n : ℕ) : List ValError :=
  (if solution.length ≠ n then [.solLen solution.length n] else []) ++
  solution.enum.filterMap fun p =>
    if p.2 = 0 ∨ p.2 = 1 then none else some (.solInvalid p.1 p.2)

/-- The baseline loop of `validate_qubo`: 1000 random binary vectors from
the stream of `np.random.default_rng(baselineSeed)` (abstracted as
`sample`), each scored as `x @ Q @ x`. -/
def quboBaseline (sample : ℕ → ℕ → ℤ) (Q : List (List ℚ)) (n : ℕ) :
    ℚ × ℚ :=
  let objs := (List.range 1000).map fun k =>
    quboObjective Q ((List.range n).map fun i => ((sample k i : ℤ) : ℚ))
  (objs.sum / 1000, listMin objs)

/-- `validate_qubo(Q, solution)`.  `sample` abstracts the fixed-seed
baseline stream, as in `validateIsing`. -/
def validateQubo (sample : ℕ → ℕ → ℤ) (Q : List (List ℚ))
    (solution : List ℤ) : QuboResult :=
  let errors := solErrors solution Q.length
  if errors.isEmpty then
    let x := solution.map fun s : ℤ => (s : ℚ)
    let b := quboBaseline sample Q solution.length
    { valid := true
      errors := []
      ok := some
        { objective := quboObjective Q x
          numOnes := solution.sum
          baselineMean := b.1
          baselineBest := b.2 } }
  else
    { valid := false, errors := errors, ok := none }

/-! ## Generators (`generate_problems.py`)

Each generator returns `Except String instance`: the source contains no
explicit validation, so the only `error` branches are the `ValueError`s
numpy itself raises (negative `scale` passed to `Generator.normal`;
`choice(..., size=3, replace=False)` from a population smaller than 3).
-/

/-- Instance produced by `generate_random_ising` (the empirical
mean/std metadata entries, which are display-only, are not carried). -/
structure IsingInstance where
  numSpins : ℕ
  couplingStd : ℚ
  fieldStd : ℚ
  seed : ℕ
  J : List (List ℚ)
  h : List ℚ
  numCouplings : ℕ
  maxEnergyBound : ℚ
  deriving Repr

/-- `generate_random_ising(n, coupling_std, field_std, seed)`.  `n` is a
Python int, so it may be negative.  `A i j` abstracts the `n x n` normal
draw for the couplings and `hdraw i` the field draw, both from the
stream of `np.random.default_rng(seed)`.  The only failures the source
can produce are numpy's: `Generator.normal` raises `ValueError` on a
negative scale (its scalar-argument path checks the scale constraint
before allocating the output), and allocating an array with a negative
dimension raises `ValueError: negative dimensions are not allowed`. -/
def generateRandomIsing (A : ℕ → ℕ → ℚ) (hdraw : ℕ → ℚ) (n : ℤ)
    (couplingStd fieldStd : ℚ) (seed : ℕ) : Except String IsingInstance :=
  if couplingStd < 0 then .error "scale < 0"
  else if n < 0 then .error "negative dimensions are not allowed"
  else
    let J := (List.range n.toNat).map fun i =>
      (List.range n.toNat).map fun j =>
        if i = j then 0 else (A i j + A j i) / 2
    if fieldStd < 0 then .error "scale < 0"
    else
      let h := (List.range n.toNat).map fun i => hdraw i
      .ok
        { numSpins := n.toNat
          couplingStd := couplingStd
          fieldStd := fieldStd
          seed := seed
          J := J
          h := h
          numCouplings := n.toNat * (n.toNat - 1) / 2
          maxEnergyBound :=
            -(1/2) * (J.map fun row => (row.map abs).sum).sum -
              (h.map abs).sum }

/-- The coupling matrix of an Ising generation result (`[]` on the error
branch, which carries no instance). -/
def isingJof (r : Except String IsingInstance) : List (List ℚ) :=
  match r with
  | .ok inst => inst.J
  | .error _ => []

/-- Instance produced by `generate_random_3sat`. -/
structure SatInstance where
  numVars : ℕ
  numClauses : ℤ
  alpha : ℚ
  seed : ℕ
  clauses : List (List ℤ)
  regime : String
  deriving Repr

/-- `generate_random_3sat(num_vars, alpha, seed)`.  `choose k` abstracts
`rng.choice(num_vars, size=3, replace=False)` for clause `k` (0-based
variable indices) and `sgn k` the three `rng.choice([-1, 1])` signs.
`num_clauses = int(num_vars * alpha)`; when at least one clause is drawn
and the population is smaller than 3, `rng.choice` raises `ValueError`. -/
def generateRandom3Sat (choose : ℕ → List ℕ) (sgn : ℕ → List ℤ)
    (numVars : ℕ) (alpha : ℚ) (seed : ℕ) : Except String SatInstance :=
  let numClauses := truncInt ((numVars : ℚ) * alpha)
  if 0 < numClauses ∧ numVars < 3 then
    .error "Cannot take a larger sample than population when replace is False"
  else
    .ok
      { numVars := numVars
        numClauses := numClauses
        alpha := alpha
        seed := seed
        clauses := (List.range numClauses.toNat).map fun k =>
          List.zipWith (fun v s => ((v : ℤ) + 1) * s) (choose k) (sgn k)
        regime := alphaRegime alpha }

/-- Instance produced by `generate_random_maxcut`. -/
structure MaxcutInstance where
  numNodes : ℕ
  edgeDensity : ℚ
  seed : ℕ
  adjacency : List (List ℚ)
  deriving Repr

/-- `generate_random_maxcut(n, edge_density, seed)`.  `n` is a Python
int; `np.zeros((n, n))` raises `ValueError` when `n` is negative.
`u i j` abstracts the `rng.random()` draw of the pair `(i, j)` with
`i < j`; the edge is included iff that draw is `< edge_density`.  No
value of `edge_density` can raise. -/
def generateRandomMaxcut (u : ℕ → ℕ → ℚ) (n : ℤ) (edgeDensity : ℚ)
    (seed : ℕ) : Except String MaxcutInstance :=
  if n < 0 then .error "negative dimensions are not allowed"
  else
    let entry : ℕ → ℕ → ℚ := fun i j =>
      if i = j then 0
      else if u (min i j) (max i j) < edgeDensity then 1 else 0
    .ok
      { numNodes := n.toNat
        edgeDensity := edgeDensity
        seed := seed
        adjacency := (List.range n.toNat).map fun i =>
          (List.range n.toNat).map fun j => entry i j }

/-- Instance produced by `generate_random_qubo`. -/
structure QuboInstance where
  numVars : ℕ
  density : ℚ
  seed : ℕ
  Q : List (List ℚ)
  deriving Repr

/-- `generate_random_qubo(n, density, seed)`.  `n` is a Python int;
`rng.normal(0, 1, (n, n))` raises `ValueError` when `n` is negative (the
scale is the literal 1, so no scale error is possible).  `A i j`
abstracts the normal(0, 1) draw and `u i j` the uniform draw of the
sparsity mask (`mask = rng.random((n, n)) < density`, applied only when
`density < 1.0`); `np.triu` then zeroes every entry with `i > j`.  No
value of `density` can raise. -/
def generateRandomQubo (A : ℕ → ℕ → ℚ) (u : ℕ → ℕ → ℚ) (n : ℤ)
    (density : ℚ) (seed : ℕ) : Except String QuboInstance :=
  if n < 0 then .error "negative dimensions are not allowed"
  else
    let masked : ℕ → ℕ → ℚ := fun i j =>
      if density < 1 then (if u i j < density then A i j else 0)
      else A i j
    .ok
      { numVars := n.toNat
        density := density
        seed := seed
        Q := (List.range n.toNat).map fun i =>
          (List.range n.toNat).map fun j =>
            if j < i then 0 else masked i j }

/-- The `Q` matrix of a QUBO generation result. -/
def quboQof (r : Except String QuboInstance) : List (List ℚ) :=
  match r with
  | .ok inst => inst.Q
  | .error _ => []

/-- Whether a generator call produced an instance (no exception). -/
def genOk {ε α : Type} (r : Except ε α) : Bool :=
  match r with
  | .ok _ => true
  | .error _ => false

/-! ## General lemmas about the embedding's list primitives -/

lemma getD_map_range {α : Type} (g : ℕ → α) (d : α) {n i : ℕ} (h : i < n) :
    ((List.range n).map g).getD i d = g i := by
  rw [List.getD_eq_getElem?_getD, List.getElem?_map, List.getElem?_range h]
  rfl

lemma mEntry_ofFn {f : ℕ → ℕ → ℚ} {n i j : ℕ} (hi : i < n) (hj : j < n) :
    mEntry ((List.range n).map fun i => (List.range n).map fun j => f i j)
      i j = f i j := by
  unfold mEntry
  rw [getD_map_range _ _ hi, getD_map_range _ _ hj]

lemma getD_map_of_lt {α β : Type} (f : α → β) (d : β) (d' : α) :
    ∀ (l : List α) (i : ℕ), i < l.length →
      (l.map f).getD i d = f (l.getD i d') := by
  intro l
  induction l with
  | nil => intro i hi; simp at hi
  | cons a t ih =>
    intro i hi
    cases i with
    | zero => rfl
    | succ m =>
      simp only [List.map_cons, List.getD_cons_succ]
      exact ih m (by simpa using hi)

lemma dot_eq_sum : ∀ (a b : List ℚ) (n : ℕ), a.length = n → b.length = n →
    dot a b = ∑ i in Finset.range n, a.getD i 0 * b.getD i 0 := by
  intro a
  induction a with
  | nil =>
    intro b n ha hb
    simp [dot, ← ha]
  | cons x a ih =>
    intro b n ha hb
    cases b with
    | nil => rw [← hb] at ha; simp at ha
    | cons y b =>
      cases n with
      | zero => simp at ha
      | succ m =>
        have hdot : dot (x :: a) (y :: b) = x * y + dot a b := by
          simp [dot]
        rw [hdot, Finset.sum_range_succ']
        simp only [List.getD_cons_succ, List.getD_cons_zero]
        rw [ih b m (by simpa using ha) (by simpa using hb)]
        ring

lemma sum_map_range' {M : Type} [AddCommMonoid M] (f : ℕ → M) :
    ∀ (b a : ℕ),
      ((List.range' a b).map f).sum = ∑ i in Finset.range b, f (a + i) := by
  intro b
  induction b with
  | zero => intro a; simp
  | succ m ih =>
    intro a
    rw [List.range'_succ, Finset.sum_range_succ']
    simp only [List.map_cons, List.sum_cons, ih (a + 1)]
    rw [add_comm]
    congr 1
    · refine Finset.sum_congr rfl fun i _ => ?_
      congr 1
      omega

lemma foldl_pair_add (f : ℕ → ℤ) (g : ℕ → ℕ) :
    ∀ (l : List ℕ) (init : ℤ × ℕ),
      l.foldl (fun st j => (st.1 + f j, st.2 + g j)) init =
        (init.1 + (l.map f).sum, init.2 + (l.map g).sum) := by
  intro l
  induction l with
  | nil => intro init; simp
  | cons a t ih =>
    intro init
    simp only [List.foldl_cons, List.map_cons, List.sum_cons, ih]
    exact Prod.ext (by simp [add_assoc]) (by simp [add_assoc])

lemma length_filterMap_if {α β : Type} (q : α → Prop) [DecidablePred q]
    (f : α → β) :
    ∀ l : List α,
      (l.filterMap fun a => if q a then none else some (f a)).length =
        l.countP fun a => decide ¬ q a := by
  intro l
  induction l with
  | nil => rfl
  | cons a t ih =>
    by_cases h : q a <;>
      simp [List.filterMap_cons, List.countP_cons, h, ih]

lemma countP_enumFrom {α : Type} (p : α → Bool) :
    ∀ (l : List α) (i : ℕ),
      ((List.enumFrom i l).countP fun pr => p pr.2) = l.countP p := by
  intro l
  induction l with
  | nil => intro i; rfl
  | cons a t ih => intro i; simp [List.enumFrom, List.countP_cons, ih]

/-- The element loop over `{-1, +1}`-valued candidates produces one
error entry per out-of-domain element. -/
lemma pmErrs_length (f : ℕ × ℤ → ValError) :
    ∀ (l : List ℤ) (i : ℕ),
      ((List.enumFrom i l).filterMap fun p =>
          if p.2 = -1 ∨ p.2 = 1 then none else some (f p)).length =
        l.countP fun s => decide ¬(s = -1 ∨ s = 1) := by
  intro l
  induction l with
  | nil => intro i; rfl
  | cons a t ih =>
    intro i
    by_cases h : a = -1 ∨ a = 1
    · simp [List.enumFrom, List.filterMap_cons, List.countP_cons, h, ih]
      tauto
    · have h1 : ¬ a = -1 := fun hc => h (Or.inl hc)
      have h2 : ¬ a = 1 := fun hc => h (Or.inr hc)
      simp [List.enumFrom, List.filterMap_cons, List.countP_cons, h, h1,
        h2, ih]

/-- The element loop over `{0, 1}`-valued candidates produces one error
entry per out-of-domain element. -/
lemma binErrs_length (f : ℕ × ℤ → ValError) :
    ∀ (l : List ℤ) (i : ℕ),
      ((List.enumFrom i l).filterMap fun p =>
          if p.2 = 0 ∨ p.2 = 1 then none else some (f p)).length =
        l.countP fun s => decide ¬(s = 0 ∨ s = 1) := by
  intro l
  induction l with
  | nil => intro i; rfl
  | cons a t ih =>
    intro i
    by_cases h : a = 0 ∨ a = 1
    · simp [List.enumFrom, List.filterMap_cons, List.countP_cons, h, ih]
      tauto
    · have h1 : ¬ a = 0 := fun hc => h (Or.inl hc)
      have h2 : ¬ a = 1 := fun hc => h (Or.inr hc)
      simp [List.enumFrom, List.filterMap_cons, List.countP_cons, h, h1,
        h2, ih]

/-- Number of domain violations `validate_ising` reports: one per bad
spin value, plus one for a length mismatch. -/
def kIsing (spins : List ℤ) (nrows : ℕ) : ℕ :=
  (spins.countP fun s => decide ¬(s = -1 ∨ s = 1)) +
    (if spins.length ≠ nrows then 1 else 0)

lemma isingErrors_length (spins : List ℤ) (n : ℕ) :
    (isingErrors spins n).length = kIsing spins n := by
  unfold isingErrors spinValueErrors kIsing List.enum
  rw [List.length_append,
    pmErrs_length (fun p => ValError.spinInvalid p.1 p.2) spins 0]
  by_cases h : spins.length ≠ n <;> simp [h]

/-- Number of domain violations `validate_sat` reports. -/
def kSat (assignment : List ℤ) (numVars : ℕ) : ℕ :=
  (if assignment.length ≠ numVars then 1 else 0) +
    (assignment.countP fun s => decide ¬(s = 0 ∨ s = 1))

lemma assignErrors_length (assignment : List ℤ) (numVars : ℕ) :
    (assignErrors assignment numVars).length = kSat assignment numVars := by
  unfold assignErrors kSat List.enum
  rw [List.length_append,
    binErrs_length (fun p => ValError.assignInvalid p.1 p.2) assignment 0]
  by_cases h : assignment.length ≠ numVars <;> simp [h]

/-- Number of domain violations `validate_maxcut` reports. -/
def kMaxcut (partition : List ℤ) (n : ℕ) : ℕ :=
  (if partition.length ≠ n then 1 else 0) +
    (partition.countP fun s => decide ¬(s = -1 ∨ s = 1))

lemma partErrors_length (partition : List ℤ) (n : ℕ) :
    (partErrors partition n).length = kMaxcut partition n := by
  unfold partErrors kMaxcut List.enum
  rw [List.length_append,
    pmErrs_length (fun p => ValError.partInvalid p.1 p.2) partition 0]
  by_cases h : partition.length ≠ n <;> simp [h]

/-- Number of domain violations `validate_qubo` reports. -/
def kQubo (solution : List ℤ) (n : ℕ) : ℕ :=
  (if solution.length ≠ n then 1 else 0) +
    (solution.countP fun s => decide ¬(s = 0 ∨ s = 1))

lemma solErrors_length (solution : List ℤ) (n : ℕ) :
    (solErrors solution n).length = kQubo solution n := by
  unfold solErrors kQubo List.enum
  rw [List.length_append,
    binErrs_length (fun p => ValError.solInvalid p.1 p.2) solution 0]
  by_cases h : solution.length ≠ n <;> simp [h]

lemma isEmpty_false_of_ne_nil {α : Type} {l : List α} (h : l ≠ []) :
    l.isEmpty = false := by
  cases l with
  | nil => exact absurd rfl h
  | cons a t => rfl

lemma isingErrors_nil {spins : List ℤ} {n : ℕ} (hlen : spins.length = n)
    (hdom : ∀ s ∈ spins, s = -1 ∨ s = 1) : isingErrors spins n = [] := by
  have hk : kIsing spins n = 0 := by
    simp [kIsing, hlen]
    intro a ha
    exact (hdom a ha).resolve_left
  exact List.eq_nil_of_length_eq_zero
    ((isingErrors_length spins n).trans hk)

lemma length_eq_of_isingErrors_nil {spins : List ℤ} {n : ℕ}
    (h : isingErrors spins n = []) : spins.length = n := by
  by_contra hne
  have h2 := isingErrors_length spins n
  rw [h] at h2
  simp [kIsing, if_pos hne] at h2

lemma assignErrors_nil {assignment : List ℤ} {numVars : ℕ}
    (hlen : assignment.length = numVars)
    (hdom : ∀ a ∈ assignment, a = 0 ∨ a = 1) :
    assignErrors assignment numVars = [] := by
  have hk : kSat assignment numVars = 0 := by
    simp [kSat, hlen]
    intro a ha
    exact (hdom a ha).resolve_left
  exact List.eq_nil_of_length_eq_zero
    ((assignErrors_length assignment numVars).trans hk)

lemma partErrors_nil {partition : List ℤ} {n : ℕ}
    (hlen : partition.length = n)
    (hdom : ∀ p ∈ partition, p = -1 ∨ p = 1) :
    partErrors partition n = [] := by
  have hk : kMaxcut partition n = 0 := by
    simp [kMaxcut, hlen]
    intro a ha
    exact (hdom a ha).resolve_left
  exact List.eq_nil_of_length_eq_zero
    ((partErrors_length partition n).trans hk)

lemma solErrors_nil {solution : List ℤ} {n : ℕ}
    (hlen : solution.length = n)
    (hdom : ∀ v ∈ solution, v = 0 ∨ v = 1) :
    solErrors solution n = [] := by
  have hk : kQubo solution n = 0 := by
    simp [kQubo, hlen]
    intro a ha
    exact (hdom a ha).resolve_left
  exact List.eq_nil_of_length_eq_zero
    ((solErrors_length solution n).trans hk)

lemma length_eq_of_solErrors_nil {solution : List ℤ} {n : ℕ}
    (h : solErrors solution n = []) : solution.length = n := by
  by_contra hne
  have h2 := solErrors_length solution n
  rw [h] at h2
  simp [kQubo, if_pos hne] at h2
  omega

/-! ## C3 - validators collect every domain violation -/

/-- C3: every validator, given a candidate with `k ≥ 1` distinct domain
violations (bad element values and/or a length mismatch), returns
`valid=false` with an error list of exactly `k` entries and computes no
objective and no baseline. -/
theorem C3_validators_collect_all_violations :
    (∀ (sample : ℕ → ℕ → ℤ) (J : List (List ℚ)) (h : List ℚ)
        (spins : List ℤ), 1 ≤ kIsing spins J.length →
        (validateIsing sample J h spins).valid = false ∧
        (validateIsing sample J h spins).errors.length =
          kIsing spins J.length ∧
        (validateIsing sample J h spins).ok = none) ∧
    (∀ (clauses : List (List ℤ)) (numVars : ℕ) (assignment : List ℤ),
        1 ≤ kSat assignment numVars →
        (validateSat clauses numVars assignment).valid = false ∧
        (validateSat clauses numVars assignment).errors.length =
          kSat assignment numVars ∧
        (validateSat clauses numVars assignment).ok = none) ∧
    (∀ (adj : List (List ℚ)) (partition : List ℤ),
        1 ≤ kMaxcut partition adj.length →
        (validateMaxcut adj partition).valid = false ∧
        (validateMaxcut adj partition).errors.length =
          kMaxcut partition adj.length ∧
        (validateMaxcut adj partition).ok = none) ∧
    (∀ (sample : ℕ → ℕ → ℤ) (Q : List (List ℚ)) (solution : List ℤ),
        1 ≤ kQubo solution Q.length →
        (validateQubo sample Q solution).valid = false ∧
        (validateQubo sample Q solution).errors.length =
          kQubo solution Q.length ∧
        (validateQubo sample Q solution).ok = none) := by
  refine ⟨?_, ?_, ?_, ?_⟩
  · intro sample J h spins hk
    have hlen := isingErrors_length spins J.length
    have hne : isingErrors spins J.length ≠ [] := by
      intro hnil
      rw [hnil] at hlen
      simp at hlen
      omega
    simp [validateIsing, isEmpty_false_of_ne_nil hne, hlen]
  · intro clauses numVars assignment hk
    have hlen := assignErrors_length assignment numVars
    have hne : assignErrors assignment numVars ≠ [] := by
      intro hnil
      rw [hnil] at hlen
      simp at hlen
      omega
    simp [validateSat, isEmpty_false_of_ne_nil hne, hlen]
  · intro adj partition hk
    have hlen := partErrors_length partition adj.length
    have hne : partErrors partition adj.length ≠ [] := by
      intro hnil
      rw [hnil] at hlen
      simp at hlen
      omega
    simp [validateMaxcut, isEmpty_false_of_ne_nil hne, hlen]
  · intro sample Q solution hk
    have hlen := solErrors_length solution Q.length
    have hne : solErrors solution Q.length ≠ [] := by
      intro hnil
      rw [hnil] at hlen
      simp at hlen
      omega
    simp [validateQubo, isEmpty_false_of_ne_nil hne, hlen]

/-- Witness for C3: one concrete invalid candidate per validator
(two bad spins plus a length mismatch; one bad assignment value; a
partition of the wrong length; one bad value plus a length mismatch). -/
theorem C3_validators_collect_all_violations_witness :
    (1 ≤ kIsing [2, 5] ([[0]] : List (List ℚ)).length ∧
      (validateIsing (fun _ _ => 1) [[0]] [0] [2, 5]).valid = false ∧
      (validateIsing (fun _ _ => 1) [[0]] [0] [2, 5]).errors.length = 3 ∧
      (validateIsing (fun _ _ => 1) [[0]] [0] [2, 5]).ok = none) ∧
    (1 ≤ kSat [2] 1 ∧
      (validateSat [] 1 [2]).valid = false ∧
      (validateSat [] 1 [2]).errors.length = 1 ∧
      (validateSat [] 1 [2]).ok = none) ∧
    (1 ≤ kMaxcut [] ([[0]] : List (List ℚ)).length ∧
      (validateMaxcut [[0]] []).valid = false ∧
      (validateMaxcut [[0]] []).errors.length = 1 ∧
      (validateMaxcut [[0]] []).ok = none) ∧
    (1 ≤ kQubo [0, 3] ([[0]] : List (List ℚ)).length ∧
      (validateQubo (fun _ _ => 0) [[0]] [0, 3]).valid = false ∧
      (validateQubo (fun _ _ => 0) [[0]] [0, 3]).errors.length = 2 ∧
      (validateQubo (fun _ _ => 0) [[0]] [0, 3]).ok = none) := by
  have h1 := C3_validators_collect_all_violations.1 (fun _ _ => 1)
    [[0]] [0] [2, 5] (by decide)
  have h2 := C3_validators_collect_all_violations.2.1 [] 1 [2] (by decide)
  have h3 := C3_validators_collect_all_violations.2.2.1 [[0]] []
    (by decide)
  have h4 := C3_validators_collect_all_violations.2.2.2 (fun _ _ => 0)
    [[0]] [0, 3] (by decide)
  exact ⟨⟨by decide, h1.1, h1.2.1.trans (by decide), h1.2.2⟩,
    ⟨by decide, h2.1, h2.2.1.trans (by decide), h2.2.2⟩,
    ⟨by decide, h3.1, h3.2.1.trans (by decide), h3.2.2⟩,
    ⟨by decide, h4.1, h4.2.1.trans (by decide), h4.2.2⟩⟩

/-! ## C9 - Ising generator invariant -/

/-- C9: for every `n ≥ 1` (in fact every `n`), non-negative
`coupling_std` and `field_std`, and seed, the coupling matrix `J`
returned by `generate_random_ising` is symmetric with zero diagonal. -/
theorem C9_ising_symmetric_zero_diag (A : ℕ → ℕ → ℚ) (hdraw : ℕ → ℚ)
    (n : ℕ) (couplingStd fieldStd : ℚ) (seed : ℕ)
    (hcs : 0 ≤ couplingStd) (hfs : 0 ≤ fieldStd)
    (i j : ℕ) (hi : i < n) (hj : j < n) :
    mEntry (isingJof (generateRandomIsing A hdraw (n : ℤ) couplingStd
        fieldStd seed)) i j =
      mEntry (isingJof (generateRandomIsing A hdraw (n : ℤ) couplingStd
        fieldStd seed)) j i ∧
    mEntry (isingJof (generateRandomIsing A hdraw (n : ℤ) couplingStd
        fieldStd seed)) i i = 0 := by
  have h1 : ¬ couplingStd < 0 := not_lt.2 hcs
  have h2 : ¬ fieldStd < 0 := not_lt.2 hfs
  have h0 : ¬ ((n : ℤ) < 0) := not_lt.2 (Int.natCast_nonneg n)
  simp only [generateRandomIsing, if_neg h1, if_neg h0, if_neg h2,
    isingJof, Int.toNat_natCast]
  refine ⟨?_, ?_⟩
  · rw [mEntry_ofFn hi hj, mEntry_ofFn hj hi]
    by_cases hij : i = j
    · simp [hij]
    · simp only [if_neg hij, if_neg (Ne.symm hij)]
      ring
  · rw [mEntry_ofFn hi hi]
    simp

/-- Witness for C9 at a concrete asymmetric draw. -/
theorem C9_ising_symmetric_zero_diag_witness :
    (0:ℚ) ≤ 1 ∧ (0 < 2 ∧ 1 < 2) ∧
    (mEntry (isingJof (generateRandomIsing (fun i j => (i : ℚ) + 2 * j)
        (fun _ => 0) 2 1 1 7)) 0 1 =
      mEntry (isingJof (generateRandomIsing (fun i j => (i : ℚ) + 2 * j)
        (fun _ => 0) 2 1 1 7)) 1 0 ∧
     mEntry (isingJof (generateRandomIsing (fun i j => (i : ℚ) + 2 * j)
        (fun _ => 0) 2 1 1 7)) 0 0 = 0) :=
  ⟨by norm_num, ⟨by norm_num, by norm_num⟩,
   C9_ising_symmetric_zero_diag (fun i j => (i : ℚ) + 2 * j) (fun _ => 0)
     2 1 1 7 (by norm_num) (by norm_num) 0 1 (by norm_num) (by norm_num)⟩

/-! ## C8 - QUBO generator invariant -/

/-- C8: for every `n ≥ 1`, density in `(0, 1]` and seed, the `Q` matrix
returned by `generate_random_qubo` is upper-triangular-plus-diagonal:
`Q[i][j] = 0` whenever `i > j` (the sparsity mask is applied before
`np.triu` in the embedding, exactly as in the source). -/
theorem C8_qubo_upper_triangular (A u : ℕ → ℕ → ℚ) (n : ℕ) (density : ℚ)
    (seed : ℕ) (hn : 1 ≤ n) (hd0 : 0 < density) (hd1 : density ≤ 1)
    (i j : ℕ) (hi : i < n) (hj : j < n) (hij : j < i) :
    mEntry (quboQof (generateRandomQubo A u (n : ℤ) density seed)) i j =
      0 := by
  have h0 : ¬ ((n : ℤ) < 0) := not_lt.2 (Int.natCast_nonneg n)
  simp only [generateRandomQubo, if_neg h0, quboQof, Int.toNat_natCast]
  rw [mEntry_ofFn hi hj]
  simp [hij]

/-- Witness for C8 at a concrete strictly-lower entry. -/
theorem C8_qubo_upper_triangular_witness :
    1 ≤ 2 ∧ (0:ℚ) < 1 ∧ (1:ℚ) ≤ 1 ∧ (1 < 2 ∧ 0 < 2 ∧ 0 < 1) ∧
    mEntry (quboQof (generateRandomQubo (fun _ _ => 5) (fun _ _ => 0)
      (2 : ℤ) 1 3)) 1 0 = 0 :=
  ⟨by norm_num, by norm_num, by norm_num,
   ⟨by norm_num, by norm_num, by norm_num⟩,
   C8_qubo_upper_triangular (fun _ _ => 5) (fun _ _ => 0) 2 1 3
     (by norm_num) (by norm_num) (by norm_num) 1 0 (by norm_num)
     (by norm_num) (by norm_num)⟩

/-! ## C2 - construction-parameter error handling (corrected)

The source generators contain no explicit parameter validation at all:
`generate_random_ising(0, ...)` returns a complete (empty) instance with
no error, and the only errors any generator can produce are the
`ValueError`s numpy raises inside its sampling primitives. -/

/-- C2 counterexample: `n = 0` is out of range (`n < 1`), yet
`generate_random_ising` with default standard deviations returns an
instance and raises nothing. -/
theorem C2_counterexample :
    (0:ℤ) < 1 ∧
    genOk (generateRandomIsing (fun _ _ => 0) (fun _ => 0) 0 (1/2) (1/10)
      42) = true := by
  constructor
  · norm_num
  · simp [genOk, generateRandomIsing]
    norm_num

/-- C2 amended: the generators perform no construction-parameter
validation of their own; the only errors are the `ValueError`s raised
inside numpy's primitives - a negative standard deviation in
`Generator.normal`, a negative size in array allocation
(`negative dimensions are not allowed`), and `num_vars < 3` in
`rng.choice(..., replace=False)` when at least one clause is drawn.
Out-of-range parameters that numpy happens to accept - size `n = 0`
(so `n < 1` is not rejected), 3-SAT `alpha ≤ 0`, any `edge_density`,
any `density` - are accepted silently and a complete instance is
returned. -/
theorem C2_generators_lack_validation :
    (∀ (A : ℕ → ℕ → ℚ) (hdraw : ℕ → ℚ) (n : ℤ) (cs fs : ℚ) (seed : ℕ),
        cs < 0 ∨ fs < 0 ∨ n < 0 →
        genOk (generateRandomIsing A hdraw n cs fs seed) = false) ∧
    (∀ (A : ℕ → ℕ → ℚ) (hdraw : ℕ → ℚ) (n : ℤ) (cs fs : ℚ) (seed : ℕ),
        0 ≤ cs → 0 ≤ fs → 0 ≤ n →
        genOk (generateRandomIsing A hdraw n cs fs seed) = true) ∧
    (∀ (choose : ℕ → List ℕ) (sgn : ℕ → List ℤ) (numVars : ℕ)
        (alpha : ℚ) (seed : ℕ),
        numVars < 3 → 0 < truncInt ((numVars : ℚ) * alpha) →
        genOk (generateRandom3Sat choose sgn numVars alpha seed) =
          false) ∧
    (∀ (choose : ℕ → List ℕ) (sgn : ℕ → List ℤ) (numVars : ℕ)
        (alpha : ℚ) (seed : ℕ),
        3 ≤ numVars ∨ truncInt ((numVars : ℚ) * alpha) ≤ 0 →
        genOk (generateRandom3Sat choose sgn numVars alpha seed) =
          true) ∧
    (∀ (u : ℕ → ℕ → ℚ) (n : ℤ) (d : ℚ) (seed : ℕ),
        (n < 0 → genOk (generateRandomMaxcut u n d seed) = false) ∧
        (0 ≤ n → genOk (generateRandomMaxcut u n d seed) = true)) ∧
    (∀ (A u : ℕ → ℕ → ℚ) (n : ℤ) (d : ℚ) (seed : ℕ),
        (n < 0 → genOk (generateRandomQubo A u n d seed) = false) ∧
        (0 ≤ n → genOk (generateRandomQubo A u n d seed) = true)) := by
  refine ⟨?_, ?_, ?_, ?_, ?_, ?_⟩
  · intro A hdraw n cs fs seed hcase
    by_cases h1 : cs < 0
    · simp [generateRandomIsing, h1, genOk]
    · by_cases h2 : n < 0
      · simp [generateRandomIsing, h1, h2, genOk]
      · have h3 : fs < 0 := by tauto
        simp [generateRandomIsing, h1, h2, h3, genOk]
  · intro A hdraw n cs fs seed h1 h2 h3
    simp [generateRandomIsing, genOk, not_lt.2 h1, not_lt.2 h2,
      not_lt.2 h3]
  · intro choose sgn numVars alpha seed h1 h2
    simp [generateRandom3Sat, genOk, h1, h2]
  · intro choose sgn numVars alpha seed hcase
    have : ¬ (0 < truncInt ((numVars : ℚ) * alpha) ∧ numVars < 3) := by
      rcases hcase with h | h
      · exact fun hc => absurd h (by omega)
      · exact fun hc => absurd hc.1 (by omega)
    simp [generateRandom3Sat, genOk, this]
  · intro u n d seed
    constructor
    · intro hn
      simp [generateRandomMaxcut, hn, genOk]
    · intro hn
      simp [generateRandomMaxcut, not_lt.2 hn, genOk]
  · intro A u n d seed
    constructor
    · intro hn
      simp [generateRandomQubo, hn, genOk]
    · intro hn
      simp [generateRandomQubo, not_lt.2 hn, genOk]

/-- Witness for C2's amended statement: a negative standard deviation,
a negative size and a zero size for the Ising generator, and a negative
and a zero size for the Max-Cut and QUBO generators, plus the two 3-SAT
branches. -/
theorem C2_generators_lack_validation_witness :
    genOk (generateRandomIsing (fun _ _ => 0) (fun _ => 0) 3 (-1) 1 5) =
      false ∧
    genOk (generateRandomIsing (fun _ _ => 0) (fun _ => 0) (-1) 1 1 5) =
      false ∧
    genOk (generateRandomIsing (fun _ _ => 0) (fun _ => 0) 0 1 1 5) =
      true ∧
    genOk (generateRandom3Sat (fun _ => [0, 1, 2]) (fun _ => [1, 1, 1])
      2 2 5) = false ∧
    genOk (generateRandom3Sat (fun _ => [0, 1, 2]) (fun _ => [1, 1, 1])
      3 1 5) = true ∧
    genOk (generateRandomMaxcut (fun _ _ => 0) (-2) 3 5) = false ∧
    genOk (generateRandomMaxcut (fun _ _ => 0) 0 3 5) = true ∧
    genOk (generateRandomQubo (fun _ _ => 0) (fun _ _ => 0) (-2) 0 5) =
      false ∧
    genOk (generateRandomQubo (fun _ _ => 0) (fun _ _ => 0) 0 0 5) =
      true :=
  ⟨C2_generators_lack_validation.1 _ _ 3 _ _ 5 (Or.inl (by norm_num)),
   C2_generators_lack_validation.1 _ _ (-1) _ _ 5
     (Or.inr (Or.inr (by norm_num))),
   C2_generators_lack_validation.2.1 _ _ 0 _ _ 5 (by norm_num)
     (by norm_num) (by norm_num),
   C2_generators_lack_validation.2.2.1 _ _ 2 2 5 (by norm_num)
     (by norm_num [truncInt]),
   C2_generators_lack_validation.2.2.2.1 _ _ 3 1 5
     (Or.inl (by norm_num)),
   (C2_generators_lack_validation.2.2.2.2.1 _ (-2) 3 5).1 (by norm_num),
   (C2_generators_lack_validation.2.2.2.2.1 _ 0 3 5).2 (by norm_num),
   (C2_generators_lack_validation.2.2.2.2.2 _ _ (-2) 0 5).1
     (by norm_num),
   (C2_generators_lack_validation.2.2.2.2.2 _ _ 0 0 5).2
     (by norm_num)⟩

lemma nil_of_isEmpty {α : Type} {l : List α} (h : l.isEmpty = true) :
    l = [] := by
  cases l with
  | nil => rfl
  | cons a t => simp at h

lemma getD_mem_of_lt {α : Type} :
    ∀ (l : List α) (i : ℕ) (d : α), i < l.length → l.getD i d ∈ l := by
  intro l
  induction l with
  | nil => intro i d h; simp at h
  | cons a t ih =>
    intro i d h
    cases i with
    | zero => simp
    | succ m =>
      simp only [List.getD_cons_succ]
      exact List.mem_cons_of_mem a (ih m d (by simpa using h))

/-- The candidate's energy, written as the explicit double sum of the
specification: `-0.5 * Σ_i Σ_j σ_i J_ij σ_j - Σ_i h_i σ_i`. -/
lemma isingEnergy_eq_sum (J : List (List ℚ)) (h : List ℚ)
    (spins : List ℤ) (n : ℕ) (hJ : J.length = n)
    (hrows : ∀ row ∈ J, row.length = n) (hh : h.length = n)
    (hs : spins.length = n) :
    isingEnergy J h (spins.map fun s : ℤ => (s : ℚ)) =
      -(1/2) * ∑ i in Finset.range n, ∑ j in Finset.range n,
          ((spins.getD i 0 : ℤ) : ℚ) * mEntry J i j *
            ((spins.getD j 0 : ℤ) : ℚ) -
        ∑ i in Finset.range n, h.getD i 0 * ((spins.getD i 0 : ℤ) : ℚ) := by
  have hσ : (spins.map fun s : ℤ => (s : ℚ)).length = n := by
    simpa using hs
  have hgetσ : ∀ i, i < n →
      (spins.map fun s : ℤ => (s : ℚ)).getD i 0 =
        ((spins.getD i 0 : ℤ) : ℚ) := by
    intro i hi
    exact getD_map_of_lt _ _ 0 spins i (by omega)
  have hmvlen :
      (matVec J (spins.map fun s : ℤ => (s : ℚ))).length = n := by
    simpa [matVec] using hJ
  unfold isingEnergy
  rw [dot_eq_sum _ _ n hσ hmvlen, dot_eq_sum h _ n hh hσ]
  congr 1
  · congr 1
    refine Finset.sum_congr rfl fun i hi => ?_
    have hi' : i < n := Finset.mem_range.1 hi
    simp only [matVec]
    rw [getD_map_of_lt
      (fun row => dot row (spins.map fun s : ℤ => (s : ℚ)))
      0 [] J i (by omega)]
    have hmem : J.getD i [] ∈ J := getD_mem_of_lt J i [] (by omega)
    rw [dot_eq_sum (J.getD i []) _ n (hrows _ hmem) hσ, hgetσ i hi',
      Finset.mul_sum]
    refine Finset.sum_congr rfl fun j hj => ?_
    have hj' : j < n := Finset.mem_range.1 hj
    rw [hgetσ j hj']
    simp only [mEntry]
    ring
  · refine Finset.sum_congr rfl fun i hi => ?_
    rw [hgetσ i (Finset.mem_range.1 hi)]

/-! ## C1 - Ising energy formula -/

/-- C1: for every symmetric `J`, field vector `h` and candidate spin
sequence that passes domain validation, `validate_ising` returns
`valid=true` and the energy `E = -0.5 * Σ_i Σ_j σ_i J_ij σ_j - Σ_i h_i σ_i`. -/
theorem C1_ising_energy_formula (sample : ℕ → ℕ → ℤ)
    (J : List (List ℚ)) (h : List ℚ) (spins : List ℤ) (n : ℕ)
    (hJ : J.length = n) (hrows : ∀ row ∈ J, row.length = n)
    (hh : h.length = n) (hs : spins.length = n)
    (hdom : ∀ s ∈ spins, s = -1 ∨ s = 1)
    (hsym : ∀ i j, i < n → j < n → mEntry J i j = mEntry J j i) :
    (validateIsing sample J h spins).valid = true ∧
    (validateIsing sample J h spins).ok.map IsingOk.energy = some
      (-(1/2) * ∑ i in Finset.range n, ∑ j in Finset.range n,
          ((spins.getD i 0 : ℤ) : ℚ) * mEntry J i j *
            ((spins.getD j 0 : ℤ) : ℚ) -
        ∑ i in Finset.range n, h.getD i 0 * ((spins.getD i 0 : ℤ) : ℚ)) := by
  have herr : isingErrors spins J.length = [] :=
    isingErrors_nil (by omega) hdom
  refine ⟨by simp [validateIsing, herr], ?_⟩
  simp only [validateIsing, herr, List.isEmpty_nil, if_pos, Option.map_some]
  exact congrArg some (isingEnergy_eq_sum J h spins n hJ hrows hh hs)

/-- Witness for C1 at the spec's literal example
(`J = [[0,1],[1,0]]`, `h = [0,0]`, candidate `[1,-1]`, energy 1). -/
theorem C1_ising_energy_formula_witness :
    (validateIsing (fun _ _ => 1) [[0, 1], [1, 0]] [0, 0] [1, -1]).valid =
      true ∧
    (validateIsing (fun _ _ => 1) [[0, 1], [1, 0]] [0, 0]
        [1, -1]).ok.map IsingOk.energy = some
      (-(1/2) * ∑ i in Finset.range 2, ∑ j in Finset.range 2,
          ((([1, -1].getD i 0 : ℤ)) : ℚ) * mEntry [[0, 1], [1, 0]] i j *
            ((([1, -1].getD j 0 : ℤ)) : ℚ) -
        ∑ i in Finset.range 2,
          ([0, 0] : List ℚ).getD i 0 * ((([1, -1].getD i 0 : ℤ)) : ℚ)) ∧
    (validateIsing (fun _ _ => 1) [[0, 1], [1, 0]] [0, 0]
        [1, -1]).ok.map IsingOk.energy = some 1 := by
  have happ := C1_ising_energy_formula (fun _ _ => 1) [[0, 1], [1, 0]]
    [0, 0] [1, -1] 2 (by decide) (by decide) (by decide) (by decide)
    (by decide)
    (by intro i j hi hj; interval_cases i <;> interval_cases j <;> rfl)
  refine ⟨happ.1, happ.2, ?_⟩
  simp [validateIsing, isingErrors, spinValueErrors, isingEnergy, dot,
    matVec, List.enum, List.enumFrom]
  norm_num

/-! ## C10 - SAT validator on an empty clause list -/

/-- C10: for every `num_vars ≥ 1` and valid 0/1 assignment,
`validate_sat` on an empty clause list divides by nothing and reports
`valid=true`, 0 of 0 clauses satisfied, satisfaction rate 100,
`satisfies_all=true` and no unsatisfied clause indices. -/
theorem C10_sat_empty_clauses (numVars : ℕ) (assignment : List ℤ)
    (hn : 1 ≤ numVars) (hlen : assignment.length = numVars)
    (hdom : ∀ a ∈ assignment, a = 0 ∨ a = 1) :
    validateSat [] numVars assignment =
      { valid := true, errors := [],
        ok := some { clausesSatisfied := 0, clausesTotal := 0,
                     satisfactionRate := 100, satisfiesAll := true,
                     alpha := 0, regime := "easy-SAT",
                     firstUnsatisfied := none } } := by
  have herr : assignErrors assignment numVars = [] :=
    assignErrors_nil hlen hdom
  have hpos : 0 < numVars := hn
  simp [validateSat, herr, satScan, roundTo, alphaRegime, round_eq, hpos,
    List.enum]
  norm_num [abs_of_nonneg]

/-- Witness for C10 with one variable assigned 0. -/
theorem C10_sat_empty_clauses_witness :
    1 ≤ 1 ∧ ([0] : List ℤ).length = 1 ∧
    (∀ a ∈ ([0] : List ℤ), a = 0 ∨ a = 1) ∧
    validateSat [] 1 [0] =
      { valid := true, errors := [],
        ok := some { clausesSatisfied := 0, clausesTotal := 0,
                     satisfactionRate := 100, satisfiesAll := true,
                     alpha := 0, regime := "easy-SAT",
                     firstUnsatisfied := none } } :=
  ⟨le_refl 1, by decide, by decide,
   C10_sat_empty_clauses 1 [0] (le_refl 1) (by decide) (by decide)⟩

/-! ## C4 - fixed baseline seed (corrected) -/

/-- C4 counterexample: the baseline seed is the literal constant 0, so it
is not distinct from the generation seed for *every* possible generation
seed - generating with seed 0 coincides with it. -/
theorem C4_counterexample :
    baselineSeed = 0 ∧ ¬ (∀ genSeed : ℕ, baselineSeed ≠ genSeed) :=
  ⟨rfl, fun hc => hc 0 rfl⟩

/-- C4 amended: the Monte-Carlo baselines of `validate_ising` and
`validate_qubo` are drawn from the fixed seed 0 (not from the instance's
generation seed, though seed 0 instances coincide with it), so the
baseline is a function of the instance alone: any two valid candidates
for the same instance receive identical baseline values. -/
theorem C4_fixed_seed_baseline_reproducible :
    (∀ (sample : ℕ → ℕ → ℤ) (J : List (List ℚ)) (h : List ℚ)
        (s₁ s₂ : List ℤ),
        (validateIsing sample J h s₁).valid = true →
        (validateIsing sample J h s₂).valid = true →
        (validateIsing sample J h s₁).ok.map IsingOk.baseline =
          (validateIsing sample J h s₂).ok.map IsingOk.baseline) ∧
    (∀ (sample : ℕ → ℕ → ℤ) (Q : List (List ℚ)) (x₁ x₂ : List ℤ),
        (validateQubo sample Q x₁).valid = true →
        (validateQubo sample Q x₂).valid = true →
        (validateQubo sample Q x₁).ok.map QuboOk.baselineMean =
            (validateQubo sample Q x₂).ok.map QuboOk.baselineMean ∧
          (validateQubo sample Q x₁).ok.map QuboOk.baselineBest =
            (validateQubo sample Q x₂).ok.map QuboOk.baselineBest) := by
  constructor
  · intro sample J h s₁ s₂ hv₁ hv₂
    have key : ∀ s : List ℤ, (validateIsing sample J h s).valid = true →
        isingErrors s J.length = [] := by
      intro s hv
      by_cases hc : (isingErrors s J.length).isEmpty = true
      · exact nil_of_isEmpty hc
      · simp [validateIsing, hc] at hv
    have h₁ := key s₁ hv₁
    have h₂ := key s₂ hv₂
    have l₁ : s₁.length = J.length := length_eq_of_isingErrors_nil h₁
    have l₂ : s₂.length = J.length := length_eq_of_isingErrors_nil h₂
    simp [validateIsing, h₁, h₂, l₁, l₂]
  · intro sample Q x₁ x₂ hv₁ hv₂
    have key : ∀ x : List ℤ, (validateQubo sample Q x).valid = true →
        solErrors x Q.length = [] := by
      intro x hv
      by_cases hc : (solErrors x Q.length).isEmpty = true
      · exact nil_of_isEmpty hc
      · simp [validateQubo, hc] at hv
    have h₁ := key x₁ hv₁
    have h₂ := key x₂ hv₂
    have l₁ : x₁.length = Q.length := length_eq_of_solErrors_nil h₁
    have l₂ : x₂.length = Q.length := length_eq_of_solErrors_nil h₂
    constructor <;> simp [validateQubo, h₁, h₂, l₁, l₂]

/-- Witness for C4's amended statement: two different valid candidates
per validator, identical baselines. -/
theorem C4_fixed_seed_baseline_reproducible_witness :
    (validateIsing (fun _ _ => 1) [[0]] [0] [1]).valid = true ∧
    (validateIsing (fun _ _ => 1) [[0]] [0] [-1]).valid = true ∧
    (validateIsing (fun _ _ => 1) [[0]] [0] [1]).ok.map IsingOk.baseline =
      (validateIsing (fun _ _ => 1) [[0]] [0] [-1]).ok.map
        IsingOk.baseline ∧
    (validateQubo (fun _ _ => 0) [[1]] [0]).valid = true ∧
    (validateQubo (fun _ _ => 0) [[1]] [1]).valid = true ∧
    (validateQubo (fun _ _ => 0) [[1]] [0]).ok.map QuboOk.baselineMean =
      (validateQubo (fun _ _ => 0) [[1]] [1]).ok.map QuboOk.baselineMean := by
  have e₁ : isingErrors [1] 1 = [] := by decide
  have e₂ : isingErrors [-1] 1 = [] := by decide
  have e₃ : solErrors [0] 1 = [] := by decide
  have e₄ : solErrors [1] 1 = [] := by decide
  have hv₁ : (validateIsing (fun _ _ => 1) [[0]] [0] [1]).valid = true := by
    simp [validateIsing, e₁]
  have hv₂ : (validateIsing (fun _ _ => 1) [[0]] [0] [-1]).valid = true := by
    simp [validateIsing, e₂]
  have hq₁ : (validateQubo (fun _ _ => 0) [[1]] [0]).valid = true := by
    simp [validateQubo, e₃]
  have hq₂ : (validateQubo (fun _ _ => 0) [[1]] [1]).valid = true := by
    simp [validateQubo, e₄]
  exact ⟨hv₁, hv₂,
    C4_fixed_seed_baseline_reproducible.1 (fun _ _ => 1) [[0]] [0] [1]
      [-1] hv₁ hv₂,
    hq₁, hq₂,
    (C4_fixed_seed_baseline_reproducible.2 (fun _ _ => 0) [[1]] [0] [1]
      hq₁ hq₂).1⟩

/-! ## C6 - SAT clause-satisfaction semantics -/

/-- The specification's literal semantics: a positive literal is true
when its variable is assigned 1, a negative literal when its variable is
assigned 0 (1-indexed magnitudes). -/
def specLitTrue (assignment : List ℤ) (l : ℤ) : Prop :=
  (0 < l ∧ assignment.getD (l.natAbs - 1) 0 = 1) ∨
  (l < 0 ∧ assignment.getD (l.natAbs - 1) 0 = 0)

instance specLitTrue.dec (assignment : List ℤ) (l : ℤ) :
    Decidable (specLitTrue assignment l) := by
  unfold specLitTrue
  infer_instance

lemma int_beq_eq_decide (a b : ℤ) : (a == b) = decide (a = b) := by
  by_cases h : a = b <;> simp [h]

lemma nat_beq_eq_decide (a b : ℕ) : (a == b) = decide (a = b) := by
  by_cases h : a = b <;> simp [h]

lemma litSat_eq (assignment : List ℤ) (l : ℤ) :
    litSat assignment l = decide (specLitTrue assignment l) := by
  unfold litSat specLitTrue
  rcases lt_trichotomy l 0 with h | h | h
  · have h1 : ¬ 0 < l := by omega
    simp [h1, h, int_beq_eq_decide]
  · subst h
    simp
  · have h1 : ¬ l < 0 := by omega
    simp [h, h1, int_beq_eq_decide]

lemma clauseSat_eq (assignment : List ℤ) (clause : List ℤ) :
    clauseSat assignment clause =
      decide (∃ l ∈ clause, specLitTrue assignment l) := by
  unfold clauseSat
  induction clause with
  | nil => simp
  | cons a t ih => simp [List.any_cons, litSat_eq, ih]

/-- The clause loop with its 10-capped unsatisfied-index accumulator,
characterised in closed form. -/
lemma satScan_go (assignment : List ℤ) :
    ∀ (l : List (List ℤ)) (i0 : ℕ) (s : ℕ) (u : List ℕ),
      u.length ≤ 10 →
      (List.enumFrom i0 l).foldl
        (fun st p =>
          if clauseSat assignment p.2 then (st.1 + 1, st.2)
          else (st.1, if st.2.length < 10 then st.2 ++ [p.1] else st.2))
        (s, u) =
      (s + l.countP (clauseSat assignment),
       u ++ (((List.enumFrom i0 l).filter fun p =>
           !clauseSat assignment p.2).map Prod.fst).take
         (10 - u.length)) := by
  intro l
  induction l with
  | nil => intro i0 s u hu; simp
  | cons c t ih =>
    intro i0 s u hu
    simp only [List.enumFrom, List.foldl_cons]
    by_cases hc : clauseSat assignment c = true
    · rw [if_pos hc, ih (i0 + 1) (s + 1) u hu]
      refine Prod.ext ?_ ?_
      · simp [hc, List.countP_cons]
        omega
      · simp [hc, List.filter_cons]
    · have hc' : clauseSat assignment c = false := by
        simpa using hc
      by_cases hu10 : u.length < 10
      · have hstep :
            (if clauseSat assignment c then (s + 1, u)
             else (s, if u.length < 10 then u ++ [i0] else u)) =
              (s, u ++ [i0]) := by
          rw [if_neg hc, if_pos hu10]
        rw [hstep, ih (i0 + 1) s (u ++ [i0]) (by simp; omega)]
        refine Prod.ext ?_ ?_
        · simp [hc', List.countP_cons]
        · have h10 : 10 - u.length = (10 - (u.length + 1)) + 1 := by
            omega
          simp only [List.filter_cons, hc', Bool.not_false, if_pos]
          simp [h10, List.take_succ_cons, List.append_assoc]
      · have hstep :
            (if clauseSat assignment c then (s + 1, u)
             else (s, if u.length < 10 then u ++ [i0] else u)) =
              (s, u) := by
          rw [if_neg hc, if_neg hu10]
        rw [hstep, ih (i0 + 1) s u hu]
        have hueq : u.length = 10 := by omega
        refine Prod.ext ?_ ?_
        · simp [hc', List.countP_cons]
        · simp [hc', hueq, List.filter_cons]

/-- `satScan` counts the satisfied clauses and keeps the first (up to)
10 unsatisfied clause indices, in clause order. -/
lemma satScan_eq (assignment : List ℤ) (clauses : List (List ℤ)) :
    satScan assignment clauses =
      (clauses.countP (clauseSat assignment),
       ((clauses.enum.filter fun p => !clauseSat assignment p.2).map
         Prod.fst).take 10) := by
  unfold satScan List.enum
  rw [satScan_go assignment clauses 0 0 [] (by simp)]
  simp

/-- C6: for every clause list (with literal magnitudes in range, as
guaranteed for generated instances) and every valid 0/1 assignment,
`validate_sat` counts a clause as satisfied iff some literal evaluates
true under the spec's semantics, reports the count, `satisfies_all` iff
every clause is satisfied, and up to 5 unsatisfied-clause indices taken
from the first 10 encountered in clause order (`null` if none). -/
theorem C6_sat_clause_semantics (clauses : List (List ℤ)) (numVars : ℕ)
    (assignment : List ℤ) (hlen : assignment.length = numVars)
    (hdom : ∀ a ∈ assignment, a = 0 ∨ a = 1)
    (hlit : ∀ c ∈ clauses, ∀ l ∈ c, 1 ≤ l.natAbs ∧ l.natAbs ≤ numVars) :
    (validateSat clauses numVars assignment).valid = true ∧
    (validateSat clauses numVars assignment).ok.map SatOk.clausesSatisfied
      = some (clauses.countP fun c =>
          decide (∃ l ∈ c, specLitTrue assignment l)) ∧
    (validateSat clauses numVars assignment).ok.map SatOk.satisfiesAll
      = some (decide (∀ c ∈ clauses, ∃ l ∈ c, specLitTrue assignment l)) ∧
    (validateSat clauses numVars assignment).ok.map SatOk.firstUnsatisfied
      = some (if (((clauses.enum.filter fun p =>
            !decide (∃ l ∈ p.2, specLitTrue assignment l)).map
            Prod.fst).take 10).isEmpty then none
          else some ((((clauses.enum.filter fun p =>
            !decide (∃ l ∈ p.2, specLitTrue assignment l)).map
            Prod.fst).take 10).take 5)) := by
  have herr : assignErrors assignment numVars = [] :=
    assignErrors_nil hlen hdom
  have hfun : clauseSat assignment =
      fun c => decide (∃ l ∈ c, specLitTrue assignment l) :=
    funext (clauseSat_eq assignment)
  have hfun2 : (fun p : ℕ × List ℤ => !clauseSat assignment p.2) =
      fun p => !decide (∃ l ∈ p.2, specLitTrue assignment l) := by
    funext p
    rw [clauseSat_eq]
  have hscan := satScan_eq assignment clauses
  rw [hfun2] at hscan
  rw [hfun] at hscan
  have hcount : (satScan assignment clauses).1 =
      clauses.countP fun c => decide (∃ l ∈ c, specLitTrue assignment l) := by
    rw [hscan]
  refine ⟨by simp [validateSat, herr], ?_, ?_, ?_⟩
  · simp only [validateSat, herr, List.isEmpty_nil, if_pos,
      Option.map_some]
    exact congrArg some hcount
  · simp only [validateSat, herr, List.isEmpty_nil, if_pos,
      Option.map_some]
    refine congrArg some ?_
    rw [nat_beq_eq_decide, hcount]
    refine decide_eq_decide.2 ?_
    constructor
    · intro hEq c hc
      exact of_decide_eq_true (List.countP_eq_length.1 hEq c hc)
    · intro hall
      exact List.countP_eq_length.2 fun c hc => decide_eq_true (hall c hc)
  · simp only [validateSat, herr, List.isEmpty_nil, if_pos,
      Option.map_some]
    refine congrArg some ?_
    rw [hscan]

/-- Witness for C6 at the spec's literal example
(`clauses=[[1,2,-3]]`, `num_vars=3`, `assignment=[0,0,0]`). -/
theorem C6_sat_clause_semantics_witness :
    ([0, 0, 0] : List ℤ).length = 3 ∧
    (∀ a ∈ ([0, 0, 0] : List ℤ), a = 0 ∨ a = 1) ∧
    (∀ c ∈ ([[1, 2, -3]] : List (List ℤ)), ∀ l ∈ c,
      1 ≤ l.natAbs ∧ l.natAbs ≤ 3) ∧
    (validateSat [[1, 2, -3]] 3 [0, 0, 0]).valid = true ∧
    (validateSat [[1, 2, -3]] 3 [0, 0, 0]).ok.map SatOk.clausesSatisfied
      = some 1 ∧
    (validateSat [[1, 2, -3]] 3 [0, 0, 0]).ok.map SatOk.satisfiesAll
      = some true ∧
    (validateSat [[1, 2, -3]] 3 [0, 0, 0]).ok.map SatOk.firstUnsatisfied
      = some none := by
  have happ := C6_sat_clause_semantics [[1, 2, -3]] 3 [0, 0, 0]
    (by decide) (by decide) (by decide)
  exact ⟨by decide, by decide, by decide, happ.1,
    happ.2.1.trans (by decide), happ.2.2.1.trans (by decide),
    happ.2.2.2.trans (by decide)⟩

/-! ## C5 - Max-Cut cut value (corrected: weights are truncated) -/

/-- Contribution of the pair `i < j` to the source's `cut_value`
accumulator: `int(adj[i][j])` when the edge exists and the labels
differ. -/
def cutTerm (adj : List (List ℚ)) (partition : List ℤ) (i j : ℕ) : ℤ :=
  if mEntry adj i j ≠ 0 ∧ partition.getD i 0 ≠ partition.getD j 0
  then truncInt (mEntry adj i j) else 0

/-- Contribution of the pair `i < j` to `total_edges`: 1 when the entry
is nonzero. -/
def edgeTerm (adj : List (List ℚ)) (i j : ℕ) : ℕ :=
  if mEntry adj i j ≠ 0 then 1 else 0

/-- Modelled from the spec: the cut value the claim asserts, with each
crossing edge contributing its exact numeric weight `adj[i][j]`. -/
def exactWeightCut (adj : List (List ℚ)) (partition : List ℤ)
    (n : ℕ) : ℚ :=
  ∑ i in Finset.range n, ∑ j in Finset.Ico (i + 1) n,
    if mEntry adj i j ≠ 0 ∧ partition.getD i 0 ≠ partition.getD j 0
    then mEntry adj i j else 0

/-- The nested pair loop of `validate_maxcut`, characterised as
independent sums over the pairs `i < j`. -/
lemma maxcutScan_eq (adj : List (List ℚ)) (partition : List ℤ) (n : ℕ) :
    maxcutScan adj partition n =
      (∑ i in Finset.range n, ∑ j in Finset.Ico (i + 1) n,
         cutTerm adj partition i j,
       ∑ i in Finset.range n, ∑ j in Finset.Ico (i + 1) n,
         edgeTerm adj i j) := by
  have hinner : ∀ (i : ℕ) (st : ℤ × ℕ),
      (List.range' (i + 1) (n - (i + 1))).foldl
        (fun st2 j =>
          if mEntry adj i j ≠ 0 then
            (if partition.getD i 0 ≠ partition.getD j 0 then
               st2.1 + truncInt (mEntry adj i j) else st2.1,
             st2.2 + 1)
          else st2) st =
      (st.1 + ∑ j in Finset.Ico (i + 1) n, cutTerm adj partition i j,
       st.2 + ∑ j in Finset.Ico (i + 1) n, edgeTerm adj i j) := by
    intro i st
    have hbody : (fun (st2 : ℤ × ℕ) j =>
        if mEntry adj i j ≠ 0 then
          (if partition.getD i 0 ≠ partition.getD j 0 then
             st2.1 + truncInt (mEntry adj i j) else st2.1,
           st2.2 + 1)
        else st2) =
        fun (st2 : ℤ × ℕ) j =>
          (st2.1 + cutTerm adj partition i j,
           st2.2 + edgeTerm adj i j) := by
      funext st2 j
      unfold cutTerm edgeTerm
      by_cases h1 : mEntry adj i j = 0
      · rw [if_neg (fun hne => hne h1), if_neg (fun hc => hc.1 h1),
          if_neg (fun hne => hne h1)]
        exact Prod.ext (by ring) (by ring)
      · rw [if_pos h1]
        by_cases h2 : partition.getD i 0 = partition.getD j 0
        · rw [if_neg (fun hne => hne h2), if_neg (fun hc => hc.2 h2),
            if_pos h1]
          exact Prod.ext (by ring) rfl
        · rw [if_pos h2, if_pos ⟨h1, h2⟩, if_pos h1]
    rw [hbody, foldl_pair_add]
    have hc : ((List.range' (i + 1) (n - (i + 1))).map
        (cutTerm adj partition i)).sum =
        ∑ j in Finset.Ico (i + 1) n, cutTerm adj partition i j := by
      rw [sum_map_range', Finset.sum_Ico_eq_sum_range]
    have he : ((List.range' (i + 1) (n - (i + 1))).map
        (edgeTerm adj i)).sum =
        ∑ j in Finset.Ico (i + 1) n, edgeTerm adj i j := by
      rw [sum_map_range', Finset.sum_Ico_eq_sum_range]
    rw [hc, he]
  unfold maxcutScan
  have houter : (fun (st : ℤ × ℕ) i =>
      (List.range' (i + 1) (n - (i + 1))).foldl
        (fun st2 j =>
          if mEntry adj i j ≠ 0 then
            (if partition.getD i 0 ≠ partition.getD j 0 then
               st2.1 + truncInt (mEntry adj i j) else st2.1,
             st2.2 + 1)
          else st2) st) =
      fun (st : ℤ × ℕ) i =>
        (st.1 + ∑ j in Finset.Ico (i + 1) n, cutTerm adj partition i j,
         st.2 + ∑ j in Finset.Ico (i + 1) n, edgeTerm adj i j) := by
    funext st i
    exact hinner i st
  rw [houter, foldl_pair_add]
  have hc : ((List.range n).map fun i =>
      ∑ j in Finset.Ico (i + 1) n, cutTerm adj partition i j).sum =
      ∑ i in Finset.range n, ∑ j in Finset.Ico (i + 1) n,
        cutTerm adj partition i j := by
    rw [List.range_eq_range', sum_map_range']
    exact Finset.sum_congr rfl fun i _ => by rw [Nat.zero_add]
  have he : ((List.range n).map fun i =>
      ∑ j in Finset.Ico (i + 1) n, edgeTerm adj i j).sum =
      ∑ i in Finset.range n, ∑ j in Finset.Ico (i + 1) n,
        edgeTerm adj i j := by
    rw [List.range_eq_range', sum_map_range']
    exact Finset.sum_congr rfl fun i _ => by rw [Nat.zero_add]
  rw [hc, he]
  simp

/-- C5 counterexample: on the real-weighted adjacency
`[[0, 1/2], [1/2, 0]]` with partition `[1, -1]` the source adds
`int(0.5) = 0`, not the exact weight `1/2`. -/
theorem C5_counterexample :
    (validateMaxcut [[0, 1/2], [1/2, 0]] [1, -1]).ok.map
        MaxcutOk.cutValue = some 0 ∧
    exactWeightCut [[0, 1/2], [1/2, 0]] [1, -1] 2 = 1/2 ∧
    ((0 : ℚ) ≠ 1/2) := by
  refine ⟨?_, ?_, by norm_num⟩
  · simp [validateMaxcut, partErrors, maxcutScan, mEntry, truncInt,
      List.enum, List.enumFrom, List.range_succ, List.range'_succ] <;>
      norm_num
  · simp [exactWeightCut, Finset.sum_range_succ,
      Finset.sum_Ico_eq_sum_range, Finset.sum_range_succ, mEntry] <;>
      norm_num

/-- C5 amended: for every adjacency matrix and valid partition, the cut
value is the sum over pairs `i < j` with nonzero entry and differing
labels of the *truncation toward zero* `int(adj[i][j])` of the weight
(exact for integer weights, not merely +1 per edge), and `total_edges`
counts every nonzero pair `i < j`. -/
theorem C5_maxcut_truncated_weights (adj : List (List ℚ))
    (partition : List ℤ) (hlen : partition.length = adj.length)
    (hdom : ∀ p ∈ partition, p = -1 ∨ p = 1) :
    (validateMaxcut adj partition).valid = true ∧
    (validateMaxcut adj partition).ok.map MaxcutOk.cutValue = some
      (∑ i in Finset.range adj.length,
        ∑ j in Finset.Ico (i + 1) adj.length,
          cutTerm adj partition i j) ∧
    (validateMaxcut adj partition).ok.map MaxcutOk.totalEdges = some
      (∑ i in Finset.range adj.length,
        ∑ j in Finset.Ico (i + 1) adj.length, edgeTerm adj i j) := by
  have herr : partErrors partition adj.length = [] :=
    partErrors_nil hlen hdom
  refine ⟨by simp [validateMaxcut, herr], ?_, ?_⟩
  · simp only [validateMaxcut, herr, List.isEmpty_nil, if_pos,
      Option.map_some]
    rw [maxcutScan_eq]
    rfl
  · simp only [validateMaxcut, herr, List.isEmpty_nil, if_pos,
      Option.map_some]
    rw [maxcutScan_eq]
    rfl

/-- Witness for C5's amended statement at the spec's unweighted example
(`adjacency=[[0,1],[1,0]]`, `partition=[1,-1]`), where the cut value is
1, total edges 1 and the cut ratio 100. -/
theorem C5_maxcut_truncated_weights_witness :
    ([1, -1] : List ℤ).length = ([[0, 1], [1, 0]] : List (List ℚ)).length ∧
    (∀ p ∈ ([1, -1] : List ℤ), p = -1 ∨ p = 1) ∧
    (validateMaxcut [[0, 1], [1, 0]] [1, -1]).valid = true ∧
    (validateMaxcut [[0, 1], [1, 0]] [1, -1]).ok.map MaxcutOk.cutValue =
      some (∑ i in Finset.range
          ([[0, 1], [1, 0]] : List (List ℚ)).length,
        ∑ j in Finset.Ico (i + 1)
          ([[0, 1], [1, 0]] : List (List ℚ)).length,
          cutTerm [[0, 1], [1, 0]] [1, -1] i j) ∧
    (validateMaxcut [[0, 1], [1, 0]] [1, -1]).ok.map MaxcutOk.cutValue =
      some 1 ∧
    (validateMaxcut [[0, 1], [1, 0]] [1, -1]).ok.map MaxcutOk.totalEdges =
      some 1 ∧
    (validateMaxcut [[0, 1], [1, 0]] [1, -1]).ok.map MaxcutOk.cutRatio =
      some 100 := by
  have happ := C5_maxcut_truncated_weights [[0, 1], [1, 0]] [1, -1]
    (by decide) (by decide)
  refine ⟨by decide, by decide, happ.1, happ.2.1, ?_, ?_, ?_⟩
  · simp [validateMaxcut, partErrors, maxcutScan, mEntry, truncInt,
      List.enum, List.enumFrom, List.range_succ, List.range'_succ] <;>
      norm_num
  · simp [validateMaxcut, partErrors, maxcutScan, mEntry, truncInt,
      List.enum, List.enumFrom, List.range_succ, List.range'_succ] <;>
      norm_num
  · simp [validateMaxcut, partErrors, maxcutScan, mEntry, truncInt,
      roundTo, round_eq, List.enum, List.enumFrom, List.range_succ,
      List.range'_succ] <;>
      norm_num

/-! ## C7 - 3-SAT generator invariants -/

/-- The magnitude of an encoded literal `(v+1)*s` with `s = ±1` is
`v+1`. -/
lemma lit_natAbs (v : ℕ) (s : ℤ) (hs : s = -1 ∨ s = 1) :
    (((v : ℤ) + 1) * s).natAbs = v + 1 := by
  rcases hs with rfl | rfl
  · have h : ((v : ℤ) + 1) * (-1) = -((v : ℤ) + 1) := by ring
    rw [h]
    omega
  · rw [mul_one]
    omega

/-- C7: for every `num_vars ≥ 3`, `alpha > 0` and seed,
`generate_random_3sat` returns exactly `floor(num_vars * alpha)`
clauses, and every clause has three literals with pairwise distinct
magnitudes each in `[1, num_vars]`.  The oracle hypotheses are numpy's
contracts: `rng.choice(num_vars, size=3, replace=False)` yields three
distinct indices below `num_vars` and `rng.choice([-1, 1], size=3)`
yields three signs. -/
theorem C7_3sat_clause_shape (choose : ℕ → List ℕ) (sgn : ℕ → List ℤ)
    (numVars : ℕ) (alpha : ℚ) (seed : ℕ) (hn : 3 ≤ numVars)
    (ha : 0 < alpha)
    (hchoose : ∀ k, (choose k).length = 3 ∧ (choose k).Nodup ∧
      ∀ v ∈ choose k, v < numVars)
    (hsgn : ∀ k, (sgn k).length = 3 ∧ ∀ s ∈ sgn k, s = -1 ∨ s = 1) :
    ∃ inst, generateRandom3Sat choose sgn numVars alpha seed =
        .ok inst ∧
      (inst.clauses.length : ℤ) = ⌊(numVars : ℚ) * alpha⌋ ∧
      ∀ c ∈ inst.clauses, c.length = 3 ∧ (c.map Int.natAbs).Nodup ∧
        ∀ l ∈ c, 1 ≤ l.natAbs ∧ l.natAbs ≤ numVars := by
  have hguard : ¬ (0 < truncInt ((numVars : ℚ) * alpha) ∧ numVars < 3) :=
    fun hc => by omega
  have hpos : (0 : ℚ) ≤ (numVars : ℚ) * alpha := by positivity
  have htr : truncInt ((numVars : ℚ) * alpha) =
      ⌊(numVars : ℚ) * alpha⌋ := by
    unfold truncInt
    rw [if_pos hpos]
  have hfl : (0 : ℤ) ≤ ⌊(numVars : ℚ) * alpha⌋ := Int.floor_nonneg.2 hpos
  unfold generateRandom3Sat
  rw [if_neg hguard]
  refine ⟨_, rfl, ?_, ?_⟩
  · simp [htr, Int.toNat_of_nonneg hfl]
  · intro c hc
    simp only [List.mem_map, List.mem_range] at hc
    obtain ⟨k, _, hck⟩ := hc
    obtain ⟨hclen, hcnodup, hcrange⟩ := hchoose k
    obtain ⟨hslen, hsdom⟩ := hsgn k
    obtain ⟨a, b, c', habc⟩ := List.length_eq_three.1 hclen
    obtain ⟨x, y, z, hxyz⟩ := List.length_eq_three.1 hslen
    rw [habc] at hcnodup hcrange
    have hx : x = -1 ∨ x = 1 := hsdom x (by rw [hxyz]; simp)
    have hy : y = -1 ∨ y = 1 := hsdom y (by rw [hxyz]; simp)
    have hz : z = -1 ∨ z = 1 := hsdom z (by rw [hxyz]; simp)
    have hcex : c = [((a : ℤ) + 1) * x, ((b : ℤ) + 1) * y,
        ((c' : ℤ) + 1) * z] := by
      rw [← hck, habc, hxyz]
      rfl
    subst hcex
    refine ⟨rfl, ?_, ?_⟩
    · simp only [List.map_cons, List.map_nil, lit_natAbs a x hx,
        lit_natAbs b y hy, lit_natAbs c' z hz]
      have h1 : a ≠ b ∧ a ≠ c' ∧ b ≠ c' := by
        have h2 := hcnodup
        simp [List.Nodup] at h2
        tauto
      simp [List.Nodup]
      omega
    · intro l hl
      have ha' : a < numVars := hcrange a (by simp)
      have hb' : b < numVars := hcrange b (by simp)
      have hc'' : c' < numVars := hcrange c' (by simp)
      simp only [List.mem_cons, List.not_mem_nil, or_false] at hl
      rcases hl with rfl | rfl | rfl
      · rw [lit_natAbs a x hx]
        omega
      · rw [lit_natAbs b y hy]
        omega
      · rw [lit_natAbs c' z hz]
        omega

/-- Witness for C7 with a constant oracle drawing variables 1,2,3 and
signs `[+,-,+]`. -/
theorem C7_3sat_clause_shape_witness :
    3 ≤ 3 ∧ (0 : ℚ) < 1 ∧
    (∃ inst, generateRandom3Sat (fun _ => [0, 1, 2])
        (fun _ => [1, -1, 1]) 3 1 0 = .ok inst ∧
      (inst.clauses.length : ℤ) = ⌊((3 : ℕ) : ℚ) * 1⌋ ∧
      ∀ c ∈ inst.clauses, c.length = 3 ∧ (c.map Int.natAbs).Nodup ∧
        ∀ l ∈ c, 1 ≤ l.natAbs ∧ l.natAbs ≤ 3) :=
  ⟨le_refl 3, by norm_num,
   C7_3sat_clause_shape (fun _ => [0, 1, 2]) (fun _ => [1, -1, 1]) 3 1 0
     (le_refl 3) (by norm_num)
     (fun k => ⟨rfl, (by decide : ([0, 1, 2] : List ℕ).Nodup),
       (by decide : ∀ v ∈ ([0, 1, 2] : List ℕ), v < 3)⟩)
     (fun k => ⟨rfl,
       (by decide : ∀ s ∈ ([1, -1, 1] : List ℤ), s = -1 ∨ s = 1)⟩)⟩

end Daugherty
